import Mathlib

/-!
Shallow embedding of the torrent-search backend in `src/main.py`.

The relevant code is pure: two provider functions over hardcoded sample
records, a provider registry, and the `/api/search` handler that selects
providers from the comma-separated `sources` parameter, concatenates their
outputs, deduplicates by the `btih` token extracted from the magnet string,
and falls back to the demo provider when the deduplicated list is empty.

Modelling conventions: Python `str` is Lean `String` (a list of unicode
code points); `needle in hay` is substring containment on code points;
`str.split(sep)` is left-to-right splitting on a separator; `str.strip()`
removes leading and trailing ASCII whitespace; `str.lower()` maps
`Char.toLower` over the characters (ASCII lowering — every title in the
data is ASCII). `None`/falsiness of the optional `sources` argument is an
`Option String` with the empty string treated as falsy, exactly as
`if sources` does in Python.
-/

set_option maxRecDepth 20000

/-- Python substring test `needle in hay`, on character lists. -/
def containsList : List Char → List Char → Bool
  | [], needle => needle.isEmpty
  | a :: t, needle => needle.isPrefixOf (a :: t) || containsList t needle

/-- Python `s.split(c)` for a single-character separator: splits on every
occurrence, keeping empty segments, and returns `[s]` when `c` is absent. -/
def splitChar (c : Char) : List Char → List (List Char)
  | [] => [[]]
  | a :: t =>
    match splitChar c t with
    | [] => [[]]
    | h :: r => if a = c then [] :: h :: r else (a :: h) :: r

/-- ASCII whitespace, as stripped by Python `str.strip()`. -/
def pySpace (c : Char) : Bool :=
  c = ' ' || c = '\t' || c = '\n' || c = '\r' || c = '\x0b' || c = '\x0c'

/-- Python `s.strip()`: drop leading and trailing whitespace. -/
def pyStrip (l : List Char) : List Char :=
  ((l.dropWhile pySpace).reverse.dropWhile pySpace).reverse

/-- Python `s.lower()` (ASCII lowering). -/
def pyLower (s : String) : String :=
  String.mk (s.data.map Char.toLower)

/-- The provider filter test: `q.lower() in title.lower()`. -/
def titleMatch (q : String) (t : String) : Bool :=
  containsList (pyLower t).data (pyLower q).data

/-- Suffix of `l` after its last (rightmost) occurrence of `sep`;
`[]` when `sep` does not occur. -/
def afterLastD (sep : List Char) : List Char → List Char
  | [] => []
  | a :: t =>
    if sep.isPrefixOf (a :: t) && !(containsList t sep) then
      (a :: t).drop sep.length
    else afterLastD sep t

/-- Python `l.split(sep)[-1]` for a non-empty, non-self-overlapping `sep`
such as `"btih:"`: the suffix after the last occurrence of `sep`, or `l`
itself when `sep` does not occur. -/
def pySplitLast (sep l : List Char) : List Char :=
  if containsList l sep then afterLastD sep l else l

/-- The record produced per result; mirrors the `SearchItem` pydantic model. -/
structure SearchItem where
  title : String
  magnet : String
  size : Option String := none
  seeds : Option Int := some 0
  peers : Option Int := some 0
  source : Option String := none
deriving DecidableEq, Repr

/-- First demo sample (Big Buck Bunny). -/
def demoBigBuck : SearchItem :=
  { title := "Big Buck Bunny 720p (WebTorrent demo)"
    magnet := "magnet:?xt=urn:btih:08ada5a7a6183aae1e09d831df6748d566095a10&dn=Big+Buck+Bunny+%5B2008%5D+720p&tr=udp%3A%2F%2Ftracker.openbittorrent.com%3A80&tr=udp%3A%2F%2Ftracker.opentrackr.org%3A1337%2Fannounce&tr=wss%3A%2F%2Ftracker.openwebtorrent.com&tr=wss%3A%2F%2Ftracker.btorrent.xyz&tr=wss%3A%2F%2Ftracker.fastcast.nz"
    size := some "700MB"
    seeds := some 500
    peers := some 200
    source := some "demo" }

/-- Second demo sample (Sintel). -/
def demoSintel : SearchItem :=
  { title := "Sintel 720p (WebTorrent demo)"
    magnet := "magnet:?xt=urn:btih:37d6f9393bd39f2f9d07c9f0e2b4f0de7b0ed2f5&dn=Sintel+%5B2010%5D+720p&tr=udp%3A%2F%2Ftracker.opentrackr.org%3A1337%2Fannounce&tr=wss%3A%2F%2Ftracker.openwebtorrent.com&tr=wss%3A%2F%2Ftracker.btorrent.xyz&tr=wss%3A%2F%2Ftracker.fastcast.nz"
    size := some "600MB"
    seeds := some 200
    peers := some 80
    source := some "demo" }

/-- Third demo sample (Tears of Steel). -/
def demoTears : SearchItem :=
  { title := "Tears of Steel 720p (WebTorrent demo)"
    magnet := "magnet:?xt=urn:btih:4a5e1e4b5b816d05f4a8f2b5756fa0fe58f3dcb5&dn=Tears+of+Steel+%5B2012%5D+720p&tr=udp%3A%2F%2Ftracker.opentrackr.org%3A1337%2Fannounce&tr=wss%3A%2F%2Ftracker.openwebtorrent.com&tr=wss%3A%2F%2Ftracker.btorrent.xyz&tr=wss%3A%2F%2Ftracker.fastcast.nz"
    size := some "900MB"
    seeds := some 120
    peers := some 60
    source := some "demo" }

/-- The curated sample list of `provider_demo`. -/
def demoSamples : List SearchItem := [demoBigBuck, demoSintel, demoTears]

/-- Model of `provider_demo(q)` from `src/main.py`: full list on empty query, else
title filter, falling back to the full list when the filter is empty
(Python `[...] or samples`). -/
def provider_demo (q : String) : List SearchItem :=
  if q = "" then demoSamples
  else
    let f := demoSamples.filter (fun s => titleMatch q s.title)
    if f = [] then demoSamples else f

/-- First linux item (Ubuntu). -/
def linuxUbuntu : SearchItem :=
  { title := "Ubuntu 22.04.4 LTS Desktop amd64"
    magnet := "magnet:?xt=urn:btih:9b9f0b3d6a1c9b0b2f0f5f7a6c3fb7a6f7c5c5b0&dn=ubuntu-22.04.4-desktop-amd64.iso&tr=udp%3A%2F%2Ftracker.opentrackr.org%3A1337%2Fannounce&tr=udp%3A%2F%2Ftracker.openbittorrent.com%3A80&tr=wss%3A%2F%2Ftracker.openwebtorrent.com"
    size := some "3.8GB"
    seeds := some 300
    peers := some 100
    source := some "linux" }

/-- Second linux item (Debian). -/
def linuxDebian : SearchItem :=
  { title := "Debian 12 netinst amd64"
    magnet := "magnet:?xt=urn:btih:debian-12-netinst-amd64&dn=debian-12.0.0-amd64-netinst.iso&tr=udp%3A%2F%2Ftracker.opentrackr.org%3A1337%2Fannounce"
    size := some "650MB"
    seeds := some 200
    peers := some 50
    source := some "linux" }

/-- Third linux item (Fedora). -/
def linuxFedora : SearchItem :=
  { title := "Fedora Workstation 40 x86_64"
    magnet := "magnet:?xt=urn:btih:fedora-40-workstation-x86_64&dn=Fedora-Workstation-Live-x86_64-40-1.14.iso&tr=udp%3A%2F%2Ftracker.opentrackr.org%3A1337%2Fannounce"
    size := some "2.2GB"
    seeds := some 120
    peers := some 40
    source := some "linux" }

/-- The item list of `provider_linux`. -/
def linuxItems : List SearchItem := [linuxUbuntu, linuxDebian, linuxFedora]

/-- Model of `provider_linux(q)` from `src/main.py`: full list on empty query, else
title filter (Python `[...] or []`, i.e. no fallback on empty match). -/
def provider_linux (q : String) : List SearchItem :=
  if q = "" then linuxItems
  else
    let f := linuxItems.filter (fun s => titleMatch q s.title)
    if f = [] then [] else f

/-- The provider registry, in insertion order. -/
def PROVIDERS : List (String × (String → List SearchItem)) :=
  [("demo", provider_demo), ("linux", provider_linux)]

/-- Registry lookup `PROVIDERS.get(key)`. -/
def getProvider (k : String) : Option (String → List SearchItem) :=
  (PROVIDERS.find? (fun p => p.1 == k)).map Prod.snd

/-- Parsed key list `[k.strip() for k in sources.split(',')]`. -/
def parsedKeys (s : String) : List String :=
  (splitChar ',' s.data).map (fun ks => String.mk (pyStrip ks))

/-- The `selected` list of the handler: parsed keys when `sources` is
truthy (set and non-empty), else all registered keys. -/
def selectedKeys : Option String → List String
  | none => PROVIDERS.map Prod.fst
  | some s => if s = "" then PROVIDERS.map Prod.fst else parsedKeys s

/-- The `results` accumulator: providers invoked in selection order,
unknown keys skipped, outputs concatenated. -/
def searchResults (q : String) (keys : List String) : List SearchItem :=
  (keys.map (fun k => match getProvider k with
    | some f => f q
    | none => [])).flatten

/-- Deduplication key of a magnet string: the text after the last `btih:`
of the first `&`-separated part containing `btih`, provided the magnet
contains `magnet:` and the extracted text is non-empty; otherwise the raw
magnet string (`key = btih or item.magnet`). -/
def dedupKey (m : String) : List Char :=
  if containsList m.data ("magnet:".data) then
    match (splitChar '&' m.data).find? (fun part => containsList part ("btih".data)) with
    | some part =>
      let b := pySplitLast ("btih:".data) part
      if b.isEmpty then m.data else b
    | none => m.data
  else m.data

/-- The dedup loop of the handler: keep an item when its key is unseen. -/
def dedup (seen : List (List Char)) : List SearchItem → List SearchItem
  | [] => []
  | i :: t =>
    if dedupKey i.magnet ∈ seen then dedup seen t
    else i :: dedup (dedupKey i.magnet :: seen) t

/-- The handler body after provider selection: dedup the concatenated
results, falling back to `provider_demo(q)` when nothing remains. -/
def searchKeys (q : String) (keys : List String) : List SearchItem :=
  let unique := dedup [] (searchResults q keys)
  if unique = [] then provider_demo q else unique

/-- The full handler of `GET /api/search?q=...&sources=...`. -/
def search (q : String) (sources : Option String) : List SearchItem :=
  searchKeys q (selectedKeys sources)

/-- Reference deduplication described by the specification: an item of the
concatenated list is kept exactly when no item before it yields the same
deduplication key; `prev` accumulates the items already inspected. -/
def dedupSpecGo (prev : List SearchItem) : List SearchItem → List SearchItem
  | [] => []
  | i :: t =>
    if ∀ p ∈ prev, dedupKey p.magnet ≠ dedupKey i.magnet then
      i :: dedupSpecGo (prev ++ [i]) t
    else dedupSpecGo (prev ++ [i]) t

/-- Reference deduplication of a whole list: keep first occurrences by key. -/
def dedupSpec (l : List SearchItem) : List SearchItem := dedupSpecGo [] l

/-- Does this item carry the given `source` tag? -/
def srcIs (tag : String) (it : SearchItem) : Bool := it.source == some tag

/-- The `sources` string with every comma-separated key that does not name
a registered provider removed (keys rejoined by commas). -/
def joinComma : List (List Char) → List Char
  | [] => []
  | [a] => a
  | a :: b :: t => a ++ ',' :: joinComma (b :: t)

/-- Remove the unregistered keys from a `sources` string. -/
def removeUnknown (s : String) : String :=
  String.mk (joinComma (((parsedKeys s).filter (fun k => (getProvider k).isSome)).map String.data))

/-! ### General lemmas about the embedded operations -/

theorem containsList_nil_needle (h : List Char) : containsList h [] = true := by
  cases h <;> simp [containsList, List.isPrefixOf]

theorem titleMatch_empty (t : String) : titleMatch "" t = true := by
  have : (pyLower "").data = [] := rfl
  simp [titleMatch, this, containsList_nil_needle]

theorem provider_demo_ne_nil (q : String) : provider_demo q ≠ [] := by
  rw [provider_demo]
  by_cases h0 : q = ""
  · rw [if_pos h0]; decide
  · rw [if_neg h0]
    by_cases hf : demoSamples.filter (fun s => titleMatch q s.title) = []
    · rw [if_pos hf]; decide
    · rw [if_neg hf]; exact hf

theorem provider_demo_sublist (q : String) : (provider_demo q).Sublist demoSamples := by
  rw [provider_demo]
  by_cases h0 : q = ""
  · rw [if_pos h0]
  · rw [if_neg h0]
    by_cases hf : demoSamples.filter (fun s => titleMatch q s.title) = []
    · rw [if_pos hf]
    · rw [if_neg hf]; exact List.filter_sublist _

theorem provider_linux_sublist (q : String) : (provider_linux q).Sublist linuxItems := by
  rw [provider_linux]
  by_cases h0 : q = ""
  · rw [if_pos h0]
  · rw [if_neg h0]
    by_cases hf : linuxItems.filter (fun s => titleMatch q s.title) = []
    · rw [if_pos hf]; exact (List.nil_sublist _)
    · rw [if_neg hf]; exact List.filter_sublist _

theorem dedup_subset {l : List SearchItem} {seen : List (List Char)} {it : SearchItem}
    (h : it ∈ dedup seen l) : it ∈ l := by
  induction l generalizing seen with
  | nil => simp [dedup] at h
  | cons i t ih =>
    by_cases hm : dedupKey i.magnet ∈ seen
    · simp only [dedup, if_pos hm] at h
      exact List.mem_cons_of_mem _ (ih h)
    · simp only [dedup, if_neg hm, List.mem_cons] at h
      rcases h with h | h
      · exact h ▸ List.mem_cons_self _ _
      · exact List.mem_cons_of_mem _ (ih h)

theorem dedup_key_unseen {l : List SearchItem} {seen : List (List Char)} {it : SearchItem}
    (h : it ∈ dedup seen l) : dedupKey it.magnet ∉ seen := by
  induction l generalizing seen with
  | nil => simp [dedup] at h
  | cons i t ih =>
    by_cases hm : dedupKey i.magnet ∈ seen
    · simp only [dedup, if_pos hm] at h
      exact ih h
    · simp only [dedup, if_neg hm, List.mem_cons] at h
      rcases h with h | h
      · exact h ▸ hm
      · have := ih h
        intro hc
        exact this (List.mem_cons_of_mem _ hc)

theorem dedup_pairwiseKeys (l : List SearchItem) (seen : List (List Char)) :
    (dedup seen l).Pairwise (fun a b => dedupKey a.magnet ≠ dedupKey b.magnet) := by
  induction l generalizing seen with
  | nil => simp [dedup]
  | cons i t ih =>
    by_cases hm : dedupKey i.magnet ∈ seen
    · simpa only [dedup, if_pos hm] using ih seen
    · simp only [dedup, if_neg hm]
      refine List.Pairwise.cons ?_ (ih _)
      intro b hb
      have := dedup_key_unseen hb
      intro he
      exact this (he ▸ List.mem_cons_self _ _)

theorem dedup_eq_self {l : List SearchItem} {seen : List (List Char)}
    (hp : l.Pairwise (fun a b => dedupKey a.magnet ≠ dedupKey b.magnet))
    (hs : ∀ it ∈ l, dedupKey it.magnet ∉ seen) : dedup seen l = l := by
  induction l generalizing seen with
  | nil => rfl
  | cons i t ih =>
    have hm : dedupKey i.magnet ∉ seen := hs i (List.mem_cons_self _ _)
    simp only [dedup, if_neg hm]
    refine congrArg (i :: ·) (ih hp.of_cons ?_)
    intro it hit
    rcases hp with _ | ⟨hhead, _⟩
    intro hc
    rcases List.mem_cons.mp hc with hc | hc
    · exact hhead it hit hc.symm
    · exact hs it (List.mem_cons_of_mem _ hit) hc

theorem dedup_exists_key {l : List SearchItem} {seen : List (List Char)} {k : List Char}
    (h : ∃ it ∈ l, dedupKey it.magnet = k) (hk : k ∉ seen) :
    ∃ r ∈ dedup seen l, dedupKey r.magnet = k := by
  induction l generalizing seen with
  | nil => simp at h
  | cons i t ih =>
    by_cases hm : dedupKey i.magnet ∈ seen
    · simp only [dedup, if_pos hm]
      refine ih ?_ hk
      rcases h with ⟨it, hit, he⟩
      rcases List.mem_cons.mp hit with rfl | hit
      · exact absurd (he ▸ hm) hk
      · exact ⟨it, hit, he⟩
    · simp only [dedup, if_neg hm]
      by_cases hik : dedupKey i.magnet = k
      · exact ⟨i, List.mem_cons_self _ _, hik⟩
      · rcases h with ⟨it, hit, he⟩
        rcases List.mem_cons.mp hit with rfl | hit
        · exact absurd he hik
        · obtain ⟨r, hr, hre⟩ := ih ⟨it, hit, he⟩ (by
            intro hc
            rcases List.mem_cons.mp hc with hc | hc
            · exact hik hc.symm
            · exact hk hc)
          exact ⟨r, List.mem_cons_of_mem _ hr, hre⟩

theorem dedup_absorb_nil {B C : List SearchItem} {seen : List (List Char)}
    (h : ∀ it ∈ B, dedupKey it.magnet ∈ seen) : dedup seen (B ++ C) = dedup seen C := by
  induction B with
  | nil => rfl
  | cons b B' ih =>
    have hb : dedupKey b.magnet ∈ seen := h b (List.mem_cons_self _ _)
    simp only [List.cons_append, dedup, if_pos hb]
    exact ih (fun it hit => h it (List.mem_cons_of_mem _ hit))

theorem dedup_absorb {B : List SearchItem} :
    ∀ (A C : List SearchItem) (seen : List (List Char)),
    (∀ it ∈ B, dedupKey it.magnet ∈ A.map (fun x => dedupKey x.magnet) ∨ dedupKey it.magnet ∈ seen) →
    dedup seen (A ++ (B ++ C)) = dedup seen (A ++ C) := by
  intro A
  induction A with
  | nil =>
    intro C seen h
    simp only [List.nil_append]
    refine dedup_absorb_nil (fun it hit => ?_)
    rcases h it hit with hc | hc
    · simp at hc
    · exact hc
  | cons a A' ih =>
    intro C seen h
    by_cases hm : dedupKey a.magnet ∈ seen
    · simp only [List.cons_append, dedup, if_pos hm]
      refine ih C seen (fun it hit => ?_)
      rcases h it hit with hc | hc
      · rw [List.map_cons, List.mem_cons] at hc
        rcases hc with hc' | hc'
        · exact Or.inr (by rw [hc']; exact hm)
        · exact Or.inl hc'
      · exact Or.inr hc
    · simp only [List.cons_append, dedup, if_neg hm]
      refine congrArg (a :: ·) (ih C _ (fun it hit => ?_))
      rcases h it hit with hc | hc
      · rw [List.map_cons, List.mem_cons] at hc
        rcases hc with hc' | hc'
        · exact Or.inr (by rw [hc']; exact List.mem_cons_self _ _)
        · exact Or.inl hc'
      · exact Or.inr (List.mem_cons_of_mem _ hc)

theorem dedup_eq_specGo (l : List SearchItem) :
    ∀ (seen : List (List Char)) (prev : List SearchItem),
    (∀ k, k ∈ seen ↔ ∃ p ∈ prev, dedupKey p.magnet = k) →
    dedup seen l = dedupSpecGo prev l := by
  induction l with
  | nil => intro seen prev _; rfl
  | cons i t ih =>
    intro seen prev hinv
    have hstep : ∀ k, k ∈ dedupKey i.magnet :: seen ↔ ∃ p ∈ prev ++ [i], dedupKey p.magnet = k := by
      intro k
      constructor
      · intro hk
        rcases List.mem_cons.mp hk with rfl | hk
        · exact ⟨i, List.mem_append_right _ (List.mem_singleton_self _), rfl⟩
        · rcases (hinv k).mp hk with ⟨p, hp, he⟩
          exact ⟨p, List.mem_append_left _ hp, he⟩
      · intro ⟨p, hp, he⟩
        rcases List.mem_append.mp hp with hp | hp
        · exact List.mem_cons_of_mem _ ((hinv k).mpr ⟨p, hp, he⟩)
        · rw [List.mem_singleton.mp hp] at he
          exact he ▸ List.mem_cons_self _ _
    by_cases hm : dedupKey i.magnet ∈ seen
    · rcases (hinv _).mp hm with ⟨p, hp, he⟩
      have hnall : ¬ (∀ p ∈ prev, dedupKey p.magnet ≠ dedupKey i.magnet) := by
        intro hall; exact hall p hp he
      simp only [dedup, if_pos hm, dedupSpecGo, if_neg hnall]
      refine ih seen (prev ++ [i]) (fun k => ?_)
      constructor
      · intro hk
        rcases (hinv k).mp hk with ⟨p', hp', he'⟩
        exact ⟨p', List.mem_append_left _ hp', he'⟩
      · intro ⟨p', hp', he'⟩
        rcases List.mem_append.mp hp' with hp' | hp'
        · exact (hinv k).mpr ⟨p', hp', he'⟩
        · rw [List.mem_singleton.mp hp'] at he'
          exact he' ▸ hm
    · have hall : ∀ p ∈ prev, dedupKey p.magnet ≠ dedupKey i.magnet := by
        intro p hp he
        exact hm ((hinv _).mpr ⟨p, hp, he⟩)
      simp only [dedup, if_neg hm, dedupSpecGo, if_pos hall]
      exact congrArg (i :: ·) (ih _ _ hstep)

theorem dedup_eq_dedupSpec (l : List SearchItem) : dedup [] l = dedupSpec l := by
  refine dedup_eq_specGo l [] [] (fun k => ?_)
  simp

theorem searchResults_append (q : String) (a b : List String) :
    searchResults q (a ++ b) = searchResults q a ++ searchResults q b := by
  simp [searchResults]

theorem searchResults_cons (q : String) (k : String) (ks : List String) :
    searchResults q (k :: ks) = (match getProvider k with
      | some f => f q
      | none => []) ++ searchResults q ks := rfl

theorem searchResults_unregistered {q : String} {keys : List String}
    (h : ∀ k ∈ keys, getProvider k = none) : searchResults q keys = [] := by
  induction keys with
  | nil => rfl
  | cons k ks ih =>
    rw [searchResults_cons, h k (List.mem_cons_self _ _),
      ih (fun k hk => h k (List.mem_cons_of_mem _ hk))]
    rfl

theorem searchResults_filter_registered (q : String) (keys : List String) :
    searchResults q (keys.filter (fun k => (getProvider k).isSome)) = searchResults q keys := by
  induction keys with
  | nil => rfl
  | cons k ks ih =>
    rw [List.filter_cons]
    by_cases hk : (getProvider k).isSome = true
    · rw [if_pos hk, searchResults_cons, searchResults_cons, ih]
    · rw [if_neg hk]
      have hn : getProvider k = none := by
        cases hg : getProvider k with
        | none => rfl
        | some f => rw [hg] at hk; simp at hk
      rw [ih, searchResults_cons, hn]
      rfl

theorem demoSamples_pairwiseKeys :
    demoSamples.Pairwise (fun a b => dedupKey a.magnet ≠ dedupKey b.magnet) := by decide

theorem allItems_pairwiseKeys :
    (demoSamples ++ linuxItems).Pairwise (fun a b => dedupKey a.magnet ≠ dedupKey b.magnet) := by
  decide

theorem search_demo_eq (q : String) : search q (some "demo") = provider_demo q := by
  have h1 : selectedKeys (some "demo") = ["demo"] := by decide
  have h2 : searchResults q ["demo"] = provider_demo q := List.append_nil (provider_demo q)
  have h3 : dedup [] (provider_demo q) = provider_demo q :=
    dedup_eq_self (demoSamples_pairwiseKeys.sublist (provider_demo_sublist q)) (by simp)
  rw [search, h1, searchKeys, h2, h3, if_neg (provider_demo_ne_nil q)]

/-! ### Claim theorems -/

/-- C1: with `sources="demo"`, the endpoint returns exactly the demo items
whose title contains the query case-insensitively when at least one title
matches; when the query is non-empty and no title matches, it returns all
three demo records; in particular `q="zzz"` yields the full demo set. -/
theorem C1_search_demo_filter (q : String) :
    (demoSamples.filter (fun s => titleMatch q s.title) ≠ [] →
      search q (some "demo") = demoSamples.filter (fun s => titleMatch q s.title)) ∧
    (q ≠ "" → demoSamples.filter (fun s => titleMatch q s.title) = [] →
      search q (some "demo") = demoSamples) ∧
    search "zzz" (some "demo") = demoSamples := by
  refine ⟨?_, ?_, by decide⟩
  · intro hf
    rw [search_demo_eq, provider_demo]
    by_cases h0 : q = ""
    · rw [if_pos h0]
      subst h0
      symm
      rw [List.filter_eq_self]
      intro a _
      exact titleMatch_empty _
    · rw [if_neg h0, if_neg hf]
  · intro h0 hf
    rw [search_demo_eq, provider_demo, if_neg h0, if_pos hf]

/-- Witness for C1 at the concrete query "bunny". -/
theorem C1_search_demo_filter_witness :
    demoSamples.filter (fun s => titleMatch "bunny" s.title) ≠ [] ∧
    search "bunny" (some "demo") = demoSamples.filter (fun s => titleMatch "bunny" s.title) :=
  ⟨by decide, (C1_search_demo_filter "bunny").1 (by decide)⟩

/-- C2: the dedup pass keeps exactly the first occurrence of each
deduplication key, and an item whose magnet lacks `magnet:` or yields no
`btih` part is deduplicated by its raw magnet string. -/
theorem C2_dedup_first_occurrence (l : List SearchItem) :
    dedup [] l = dedupSpec l ∧
    (∀ m : String, containsList m.data ("magnet:".data) = false → dedupKey m = m.data) ∧
    (∀ m : String,
      (splitChar '&' m.data).find? (fun part => containsList part ("btih".data)) = none →
      dedupKey m = m.data) := by
  refine ⟨dedup_eq_dedupSpec l, ?_, ?_⟩
  · intro m hm
    rw [dedupKey, if_neg (by simp [hm])]
  · intro m hm
    rw [dedupKey]
    by_cases hc : containsList m.data ("magnet:".data) = true
    · rw [if_pos hc, hm]
    · rw [if_neg hc]

/-- Witness for C2: fallback keys evaluated on concrete magnet strings. -/
theorem C2_dedup_first_occurrence_witness :
    containsList ("x".data) ("magnet:".data) = false ∧
    dedupKey "x" = ("x".data) ∧
    (splitChar '&' ("magnet:x".data)).find? (fun part => containsList part ("btih".data)) = none ∧
    dedupKey "magnet:x" = ("magnet:x".data) :=
  ⟨by decide, (C2_dedup_first_occurrence []).2.1 "x" (by decide), by decide,
    (C2_dedup_first_occurrence []).2.2 "magnet:x" (by decide)⟩

/-- C5: the providers disagree on empty-match fallback: on a non-empty
query matching no title, `provider_demo` returns its full non-empty sample
list while `provider_linux` returns `[]`; both return their full lists on
the empty query. -/
theorem C5_provider_disagreement (q : String) :
    (q ≠ "" →
      demoSamples.filter (fun s => titleMatch q s.title) = [] →
      provider_demo q = demoSamples ∧ demoSamples ≠ []) ∧
    (q ≠ "" →
      linuxItems.filter (fun s => titleMatch q s.title) = [] →
      provider_linux q = []) ∧
    provider_demo "" = demoSamples ∧ provider_linux "" = linuxItems := by
  refine ⟨?_, ?_, by decide, by decide⟩
  · intro h0 hf
    refine ⟨?_, by decide⟩
    rw [provider_demo, if_neg h0, if_pos hf]
  · intro h0 hf
    rw [provider_linux, if_neg h0, if_pos hf]

/-- Witness for C5 at the concrete query "zzz". -/
theorem C5_provider_disagreement_witness :
    (demoSamples.filter (fun s => titleMatch "zzz" s.title) = [] ∧
      linuxItems.filter (fun s => titleMatch "zzz" s.title) = []) ∧
    (provider_demo "zzz" = demoSamples ∧ demoSamples ≠ []) ∧ provider_linux "zzz" = [] :=
  ⟨⟨by decide, by decide⟩,
    (C5_provider_disagreement "zzz").1 (by decide) (by decide),
    (C5_provider_disagreement "zzz").2.1 (by decide) (by decide)⟩

/-- C7: `q="ubuntu"`, `sources="linux"` returns exactly the single Ubuntu
record. -/
theorem C7_search_linux_ubuntu :
    search "ubuntu" (some "linux") = [linuxUbuntu] ∧
    linuxUbuntu.title = "Ubuntu 22.04.4 LTS Desktop amd64" :=
  ⟨by decide, rfl⟩

/-- C8: an empty `sources` string is treated exactly like an unset one
(Python falsiness), so all registered providers are consulted. -/
theorem C8_empty_sources_as_unset (q : String) :
    search q (some "") = search q none := rfl

/-- C9: every list the endpoint returns, the demo fallback included, has
pairwise-distinct deduplication keys. -/
theorem C9_output_keys_distinct (q : String) (sources : Option String) :
    (search q sources).Pairwise (fun a b => dedupKey a.magnet ≠ dedupKey b.magnet) := by
  rw [search, searchKeys]
  by_cases h : dedup [] (searchResults q (selectedKeys sources)) = []
  · rw [if_pos h]
    exact demoSamples_pairwiseKeys.sublist (provider_demo_sublist q)
  · rw [if_neg h]
    exact dedup_pairwiseKeys _ _

theorem demoSamples_sources : demoSamples.all (srcIs "demo") = true := by decide

theorem linuxItems_sources : linuxItems.all (srcIs "linux") = true := by decide

theorem mem_searchResults_of_key {q : String} {keys : List String} {k : String} {it : SearchItem}
    (hk : k ∈ keys) (hit : it ∈ searchResults q [k]) : it ∈ searchResults q keys := by
  rw [searchResults] at hit ⊢
  rcases List.mem_flatten.mp hit with ⟨l, hl, hitl⟩
  rcases List.mem_map.mp hl with ⟨k', hk', he⟩
  rw [List.mem_singleton.mp hk'] at he
  exact List.mem_flatten.mpr ⟨l, List.mem_map.mpr ⟨k, hk, he⟩, hitl⟩

/-- C3 counterexample: the empty string is an invalid `sources` value in the
claim's sense (its only parsed key is unregistered), yet the endpoint then
consults all providers instead of returning the demo provider's output. -/
theorem C3_cex_empty_sources :
    (parsedKeys "").all (fun k => (getProvider k).isNone) = true ∧
    search "" (some "") ≠ provider_demo "" :=
  ⟨by decide, by decide⟩

/-- C3 amended: for every query and every NON-empty `sources` string none
of whose comma-separated keys names a registered provider, the endpoint
returns the demo provider's output, which is never empty. -/
theorem C3_invalid_sources_fallback (q s : String) (hs : s ≠ "")
    (h : (parsedKeys s).all (fun k => (getProvider k).isNone) = true) :
    search q (some s) = provider_demo q ∧ provider_demo q ≠ [] := by
  have h' : ∀ k ∈ parsedKeys s, getProvider k = none := by
    intro k hk
    have := List.all_eq_true.mp h k hk
    exact Option.isNone_iff_eq_none.mp this
  have h1 : selectedKeys (some s) = parsedKeys s := by
    rw [selectedKeys, if_neg hs]
  have h2 : searchResults q (parsedKeys s) = [] := searchResults_unregistered h'
  refine ⟨?_, provider_demo_ne_nil q⟩
  rw [search, h1, searchKeys, h2]
  exact if_pos rfl

/-- Witness for C3's amended statement at `q="x"`, `sources="bogus"`. -/
theorem C3_invalid_sources_fallback_witness :
    (("bogus" : String) ≠ "" ∧
      (parsedKeys "bogus").all (fun k => (getProvider k).isNone) = true) ∧
    (search "x" (some "bogus") = provider_demo "x" ∧ provider_demo "x" ≠ []) :=
  ⟨⟨by decide, by decide⟩, C3_invalid_sources_fallback "x" "bogus" (by decide) (by decide)⟩

/-- C4 counterexample: with `sources` unset and the query "zzz" (which
matches no linux title), no returned item originates from the linux
provider — every item carries the demo source tag. -/
theorem C4_cex_no_linux_result :
    (search "zzz" none).all (fun it => !(srcIs "linux" it)) = true ∧
    search "zzz" none ≠ [] :=
  ⟨by decide, by decide⟩

/-- C4 amended: with `sources` unset the result always contains an item
from the demo provider, and it contains an item from the linux provider
whenever `provider_linux` returns a non-empty list for the query (the
query is empty or matches some linux title). -/
theorem C4_default_sources (q : String) :
    (search q none).any (srcIs "demo") = true ∧
    (provider_linux q ≠ [] → (search q none).any (srcIs "linux") = true) := by
  have hsel : selectedKeys none = ["demo", "linux"] := rfl
  have hR : searchResults q ["demo", "linux"] = provider_demo q ++ provider_linux q := by
    show provider_demo q ++ (provider_linux q ++ []) = _
    rw [List.append_nil]
  have cross := (List.pairwise_append.mp allItems_pairwiseKeys).2.2
  constructor
  · cases hd : provider_demo q with
    | nil => exact absurd hd (provider_demo_ne_nil q)
    | cons i t =>
      have hu : dedup [] (searchResults q ["demo", "linux"])
          = i :: dedup [dedupKey i.magnet] (t ++ provider_linux q) := by
        rw [hR, hd, List.cons_append, dedup, if_neg (List.not_mem_nil _)]
      rw [search, hsel, searchKeys, hu, if_neg (by simp)]
      refine List.any_eq_true.mpr ⟨i, List.mem_cons_self _ _, ?_⟩
      have hids : i ∈ demoSamples := by
        have : i ∈ provider_demo q := by rw [hd]; exact List.mem_cons_self _ _
        exact (provider_demo_sublist q).subset this
      exact List.all_eq_true.mp demoSamples_sources i hids
  · intro hl
    cases hlc : provider_linux q with
    | nil => exact absurd hlc hl
    | cons j s =>
      have hj : j ∈ provider_linux q := by rw [hlc]; exact List.mem_cons_self _ _
      have hjl : j ∈ linuxItems := (provider_linux_sublist q).subset hj
      have hex : ∃ it ∈ searchResults q ["demo", "linux"],
          dedupKey it.magnet = dedupKey j.magnet := by
        rw [hR]
        exact ⟨j, List.mem_append_right _ hj, rfl⟩
      obtain ⟨r, hr, hre⟩ := dedup_exists_key hex (List.not_mem_nil _)
      have hune : dedup [] (searchResults q ["demo", "linux"]) ≠ [] :=
        List.ne_nil_of_mem hr
      rw [search, hsel, searchKeys, if_neg hune]
      refine List.any_eq_true.mpr ⟨r, hr, ?_⟩
      have hrmem : r ∈ provider_demo q ++ provider_linux q := by
        rw [← hR]; exact dedup_subset hr
      rcases List.mem_append.mp hrmem with hrd | hrl
      · exfalso
        exact cross r ((provider_demo_sublist q).subset hrd) j hjl hre
      · exact List.all_eq_true.mp linuxItems_sources r ((provider_linux_sublist q).subset hrl)

/-- Witness for C4's amended statement at the empty query. -/
theorem C4_default_sources_witness :
    provider_linux "" ≠ [] ∧ (search "" none).any (srcIs "linux") = true :=
  ⟨by decide, (C4_default_sources "").2 (by decide)⟩

/-- C10: listing a registered provider key twice leaves the endpoint's
output unchanged: `sources="demo,demo"` behaves like `sources="demo"`, and
in general inserting a duplicate of any key already present earlier in the
selected key list does not change the handler's result. -/
theorem C10_duplicate_keys :
    (∀ q, search q (some "demo,demo") = search q (some "demo")) ∧
    (∀ (q : String) (ks1 ks2 : List String) (k : String), k ∈ ks1 →
      searchKeys q (ks1 ++ k :: ks2) = searchKeys q (ks1 ++ ks2)) := by
  have hmain : ∀ (q : String) (ks1 ks2 : List String) (k : String), k ∈ ks1 →
      searchKeys q (ks1 ++ k :: ks2) = searchKeys q (ks1 ++ ks2) := by
    intro q ks1 ks2 k hk
    have hsplit : searchResults q (ks1 ++ k :: ks2)
        = searchResults q ks1 ++ (searchResults q [k] ++ searchResults q ks2) := by
      rw [show ks1 ++ k :: ks2 = ks1 ++ ([k] ++ ks2) from rfl,
        searchResults_append, searchResults_append]
    have habs : dedup [] (searchResults q ks1 ++ (searchResults q [k] ++ searchResults q ks2))
        = dedup [] (searchResults q ks1 ++ searchResults q ks2) := by
      apply dedup_absorb
      intro it hit
      exact Or.inl (List.mem_map.mpr ⟨it, mem_searchResults_of_key hk hit, rfl⟩)
    rw [searchKeys, searchKeys, hsplit, searchResults_append, habs]
  refine ⟨?_, hmain⟩
  intro q
  have e1 : selectedKeys (some "demo,demo") = ["demo", "demo"] := by decide
  have e2 : selectedKeys (some "demo") = ["demo"] := by decide
  rw [search, search, e1, e2]
  exact hmain q ["demo"] [] "demo" (List.mem_singleton_self _)

/-- Witness for C10 at the concrete key list `["demo"]` with "demo"
duplicated. -/
theorem C10_duplicate_keys_witness :
    ("demo" : String) ∈ ["demo"] ∧
    searchKeys "" (["demo"] ++ "demo" :: []) = searchKeys "" (["demo"] ++ []) :=
  ⟨by decide, C10_duplicate_keys.2 "" ["demo"] [] "demo" (List.mem_singleton_self _)⟩

theorem splitChar_ne_nil (c : Char) (l : List Char) : splitChar c l ≠ [] := by
  cases l with
  | nil => simp [splitChar]
  | cons a t =>
    rw [splitChar]
    cases h : splitChar c t with
    | nil => simp
    | cons hd r =>
      by_cases hac : a = c
      · simp [hac]
      · simp [hac]

theorem splitChar_append_free {c : Char} {a l : List Char} {hd : List Char}
    {r : List (List Char)} (hfree : ∀ x ∈ a, x ≠ c) (hl : splitChar c l = hd :: r) :
    splitChar c (a ++ l) = (a ++ hd) :: r := by
  induction a with
  | nil => simpa using hl
  | cons x a' ih =>
    have hx : x ≠ c := hfree x (List.mem_cons_self _ _)
    have ih' := ih (fun y hy => hfree y (List.mem_cons_of_mem _ hy))
    rw [List.cons_append, splitChar, ih']
    show (if x = c then [] :: (a' ++ hd) :: r else (x :: (a' ++ hd)) :: r)
      = ((x :: a') ++ hd) :: r
    rw [if_neg hx, List.cons_append]

theorem splitChar_free {c : Char} {a : List Char} (hfree : ∀ x ∈ a, x ≠ c) :
    splitChar c a = [a] := by
  have h0 : splitChar c ([] : List Char) = [] :: [] := rfl
  have := splitChar_append_free hfree h0
  simpa using this

theorem splitChar_joinComma : ∀ (segs : List (List Char)), segs ≠ [] →
    (∀ seg ∈ segs, ∀ x ∈ seg, x ≠ ',') →
    splitChar ',' (joinComma segs) = segs := by
  intro segs
  induction segs with
  | nil => intro h; exact absurd rfl h
  | cons a t ih =>
    intro _ hfree
    cases t with
    | nil =>
      rw [joinComma]
      exact splitChar_free (hfree a (List.mem_cons_self _ _))
    | cons b t' =>
      have hrec := ih (by simp) (fun seg hs => hfree seg (List.mem_cons_of_mem _ hs))
      have hcons : splitChar ',' (',' :: joinComma (b :: t')) = [] :: b :: t' := by
        rw [splitChar, hrec]
        simp
      have hstep := splitChar_append_free (hfree a (List.mem_cons_self _ _)) hcons
      rw [joinComma, hstep, List.append_nil]

theorem joinComma_ne_nil {segs : List (List Char)} (h : segs ≠ [])
    (h2 : ∀ seg ∈ segs, seg ≠ []) : joinComma segs ≠ [] := by
  cases segs with
  | nil => exact absurd rfl h
  | cons a t =>
    cases t with
    | nil => exact h2 a (List.mem_cons_self _ _)
    | cons b t' =>
      rw [joinComma]
      intro hc
      rcases List.append_eq_nil.mp hc with ⟨_, hc2⟩
      exact List.cons_ne_nil _ _ hc2

theorem getProvider_eq_none {k : String} (h1 : k ≠ "demo") (h2 : k ≠ "linux") :
    getProvider k = none := by
  have b1 : (("demo" : String) == k) = false := by
    rw [beq_eq_false_iff_ne]
    exact fun he => h1 he.symm
  have b2 : (("linux" : String) == k) = false := by
    rw [beq_eq_false_iff_ne]
    exact fun he => h2 he.symm
  rw [getProvider, PROVIDERS]
  simp [List.find?, b1, b2]

theorem getProvider_isSome_cases {k : String} (h : (getProvider k).isSome = true) :
    k = "demo" ∨ k = "linux" := by
  by_cases h1 : k = "demo"
  · exact Or.inl h1
  · by_cases h2 : k = "linux"
    · exact Or.inr h2
    · rw [getProvider_eq_none h1 h2] at h
      simp at h

theorem map_id_of_mem {α : Type} {l : List α} {f : α → α} (h : ∀ a ∈ l, f a = a) :
    l.map f = l := by
  induction l with
  | nil => rfl
  | cons a t ih =>
    rw [List.map_cons, h a (List.mem_cons_self _ _),
      ih (fun b hb => h b (List.mem_cons_of_mem _ hb))]

/-- C6 counterexample: removing every unregistered key from
`sources="bogus"` leaves the empty string, which the endpoint treats as
unset (all providers) while `"bogus"` itself triggers the demo fallback —
the two results differ. -/
theorem C6_cex_all_unknown :
    removeUnknown "bogus" = "" ∧ search "" (some "bogus") ≠ search "" (some "") :=
  ⟨by decide, by decide⟩

/-- C6 amended: for every query and every `sources` string at least one of
whose comma-separated keys names a registered provider, the endpoint's
result equals the result for the same string with every unregistered key
removed; unknown keys are silently skipped and never cause an error. -/
theorem C6_unknown_keys_ignored (q s : String)
    (h : (parsedKeys s).any (fun k => (getProvider k).isSome) = true) :
    search q (some s) = search q (some (removeUnknown s)) := by
  obtain ⟨k0, hk0, hk0s⟩ := List.any_eq_true.mp h
  by_cases hs : s = ""
  · subst hs
    have he : k0 = "" := by
      have e : parsedKeys "" = [""] := rfl
      rw [e] at hk0
      exact List.mem_singleton.mp hk0
    rw [he] at hk0s
    exact absurd hk0s (by decide)
  · have hker : ∀ k ∈ (parsedKeys s).filter (fun k => (getProvider k).isSome),
        k = "demo" ∨ k = "linux" := by
      intro k hk
      exact getProvider_isSome_cases (List.mem_filter.mp hk).2
    have hkeptne : (parsedKeys s).filter (fun k => (getProvider k).isSome) ≠ [] :=
      List.ne_nil_of_mem (List.mem_filter.mpr ⟨hk0, hk0s⟩)
    have hsegsne :
        ((parsedKeys s).filter (fun k => (getProvider k).isSome)).map String.data ≠ [] := by
      intro hc
      exact hkeptne (List.map_eq_nil_iff.mp hc)
    have hfree : ∀ seg ∈ ((parsedKeys s).filter
        (fun k => (getProvider k).isSome)).map String.data, ∀ x ∈ seg, x ≠ ',' := by
      intro seg hseg
      rcases List.mem_map.mp hseg with ⟨k, hk, he⟩
      rcases hker k hk with rfl | rfl
      · rw [← he]; decide
      · rw [← he]; decide
    have hitems : ∀ seg ∈ ((parsedKeys s).filter
        (fun k => (getProvider k).isSome)).map String.data, seg ≠ [] := by
      intro seg hseg
      rcases List.mem_map.mp hseg with ⟨k, hk, he⟩
      rcases hker k hk with rfl | rfl
      · rw [← he]; decide
      · rw [← he]; decide
    have hsplit := splitChar_joinComma _ hsegsne hfree
    have hparsed : parsedKeys (removeUnknown s)
        = (parsedKeys s).filter (fun k => (getProvider k).isSome) := by
      show (splitChar ',' (joinComma (((parsedKeys s).filter
          (fun k => (getProvider k).isSome)).map String.data))).map
          (fun ks => String.mk (pyStrip ks))
        = (parsedKeys s).filter (fun k => (getProvider k).isSome)
      rw [hsplit, List.map_map]
      refine map_id_of_mem ?_
      intro k hk
      rcases hker k hk with rfl | rfl
      · rfl
      · rfl
    have hne' : removeUnknown s ≠ "" := by
      have hjne := joinComma_ne_nil hsegsne hitems
      intro hc
      exact hjne (congrArg String.data hc)
    have hres : searchResults q ((parsedKeys s).filter (fun k => (getProvider k).isSome))
        = searchResults q (parsedKeys s) :=
      searchResults_filter_registered q (parsedKeys s)
    rw [search, search, selectedKeys, selectedKeys, if_neg hs, if_neg hne', hparsed,
      searchKeys, searchKeys, hres]

/-- Witness for C6's amended statement at `q="a"`, `sources="demo,bogus"`. -/
theorem C6_unknown_keys_ignored_witness :
    (parsedKeys "demo,bogus").any (fun k => (getProvider k).isSome) = true ∧
    search "a" (some "demo,bogus") = search "a" (some (removeUnknown "demo,bogus")) :=
  ⟨by decide, C6_unknown_keys_ignored "a" "demo,bogus" (by decide)⟩
